import Mathlib

/-!
Verification of the deterministic postprocessing engine (`app/postprocess.py`)
of the email-triage server.

The Python source is shallowly embedded: every pure function of the module is
translated into an executable Lean definition over `List Char` / `String`,
rationals (for the float confidence), and an explicit `PyDateTime` record
(wall-clock fields plus an optional UTC offset).  External collaborators
(the `dateutil` fuzzy parser, `dateutil.isoparse`, and the tz-database
`astimezone` conversion) are passed in as function parameters, so every
theorem quantifies over their possible behaviours; concrete instances used in
closed evaluations model the documented behaviour of those libraries at the
specific inputs used.  A Python exception escaping a function is modelled by
`Except.error ()`.
-/

namespace AIServer

/-- ASCII whitespace recognized by the regex class `\s` and by `str.strip()`
(the source texts are ASCII; the Unicode extras of Python are irrelevant
here). -/
def isPyWs (c : Char) : Bool :=
  c = ' ' || c = '\t' || c = '\n' || c = '\r' || c = '\x0b' || c = '\x0c'

/-- Word character for the regex boundary `\b`: `[A-Za-z0-9_]`. -/
def isWordChar (c : Char) : Bool :=
  c.isAlpha || c.isDigit || c = '_'

/-- The regex character class `[^A-Za-z0-9]` is the negation of this. -/
def isAsciiAlnum (c : Char) : Bool :=
  c.isAlpha || c.isDigit

/-- Python `str.lower()` (ASCII). -/
def lowerStr (s : String) : String := ⟨s.data.map Char.toLower⟩

/-- Python `str.upper()` (ASCII). -/
def upperStr (s : String) : String := ⟨s.data.map Char.toUpper⟩

/-- Drop the given characters from both ends of a list. -/
def stripEnds (p : Char → Bool) (l : List Char) : List Char :=
  ((l.dropWhile p).reverse.dropWhile p).reverse

/-- Python `str.strip()` (no argument): strip whitespace from both ends. -/
def pyStrip (s : String) : String := ⟨stripEnds isPyWs s.data⟩

/-- Python `str.strip("_")`. -/
def stripUnderscores (s : String) : String := ⟨stripEnds (· = '_') s.data⟩

/-- Python slicing `s[:n]` (by characters). -/
def strTake (n : Nat) (s : String) : String := ⟨s.data.take n⟩

/-- Is `pat` a contiguous sublist of `l`?  Models Python `pat in s`. -/
def infixOfB (pat : List Char) : List Char → Bool
  | [] => pat.isPrefixOf []
  | c :: rest => pat.isPrefixOf (c :: rest) || infixOfB pat rest

/-- Python `pat in s` on strings. -/
def substrB (pat s : String) : Bool := infixOfB pat.data s.data

/-- Boundary test used before a match: the previous character (if any) must
not be a word character. -/
def boundaryOk : Option Char → Bool
  | none => true
  | some c => !isWordChar c

/-- Boundary test `\b` after a match: end of input or a non-word character. -/
def boundaryAfter : List Char → Bool
  | [] => true
  | c :: _ => !isWordChar c

/-- Does the all-word pattern `w` occur in `l` as a whole word?  Models
`re.search(rf"\b{w}\b", l)` for patterns made of word characters only
(`prev` is the character just before the current position). -/
def containsWordAux (w : List Char) (prev : Option Char) : List Char → Bool
  | [] => boundaryOk prev && w.isPrefixOf [] && boundaryAfter []
  | c :: rest =>
    (boundaryOk prev && w.isPrefixOf (c :: rest)
      && boundaryAfter (List.drop w.length (c :: rest)))
    || containsWordAux w (some c) rest

/-- Whole-word containment on strings. -/
def containsWord (w s : String) : Bool := containsWordAux w.data none s.data

/-- `re.sub(r"\s+", " ", s)`: collapse every whitespace run to one space
(`prevWs` tracks whether the previous character was part of a run). -/
def collapseWsAux (prevWs : Bool) : List Char → List Char
  | [] => []
  | c :: rest =>
    if isPyWs c then
      if prevWs then collapseWsAux true rest
      else ' ' :: collapseWsAux true rest
    else c :: collapseWsAux false rest

/-- `re.sub(r"\s+", " ", s)` on strings. -/
def collapseWs (s : String) : String := ⟨collapseWsAux false s.data⟩

/-- `re.sub(r"[^A-Za-z0-9]+", "_", s)`: collapse every run of
non-alphanumeric characters to a single underscore. -/
def collapseNonAlnumAux (prevBad : Bool) : List Char → List Char
  | [] => []
  | c :: rest =>
    if isAsciiAlnum c then c :: collapseNonAlnumAux false rest
    else if prevBad then collapseNonAlnumAux true rest
    else '_' :: collapseNonAlnumAux true rest

/-- `re.sub(r"[^A-Za-z0-9]+", "_", s)` on strings. -/
def collapseNonAlnum (s : String) : String := ⟨collapseNonAlnumAux false s.data⟩

/-- `re.sub(r"_+", "_", s)`: collapse underscore runs. -/
def collapseUnderscoresAux (prevU : Bool) : List Char → List Char
  | [] => []
  | c :: rest =>
    if c = '_' then
      if prevU then collapseUnderscoresAux true rest
      else '_' :: collapseUnderscoresAux true rest
    else c :: collapseUnderscoresAux false rest

/-- `re.sub(r"_+", "_", s)` on strings. -/
def collapseUnderscores (s : String) : String := ⟨collapseUnderscoresAux false s.data⟩

/-- A Python `datetime`, embedded with an absolute day number (days since
1970-01-01) plus wall-clock time fields and the UTC offset of its `tzinfo`
in minutes (`none` models a naive datetime).  1970-01-01 was a Thursday, so
`weekday` below agrees with Python's Monday-is-0 convention. -/
structure PyDateTime where
  day : Int
  hour : Nat := 0
  minute : Nat := 0
  second : Nat := 0
  micro : Nat := 0
  off : Option Int := none
deriving Repr, DecidableEq

/-- Python `datetime.weekday()`: 0 = Monday … 6 = Sunday. -/
def PyDateTime.weekday (d : PyDateTime) : Int := Int.emod (d.day + 3) 7

/-- `d + timedelta(days=n)`. -/
def PyDateTime.addDays (d : PyDateTime) (n : Int) : PyDateTime :=
  { d with day := d.day + n }

/-- `d.replace(hour=h, minute=m, second=0, microsecond=0)`.  Python raises
`ValueError` when a field is out of range; that is the `Except.error` case. -/
def PyDateTime.replaceTime (d : PyDateTime) (h m : Nat) :
    Except Unit PyDateTime :=
  if h ≤ 23 && m ≤ 59 then
    .ok { d with hour := h, minute := m, second := 0, micro := 0 }
  else .error ()

/-- Proleptic-Gregorian (year, month, day-of-month) of a day number counted
from 1970-01-01 (Hinnant's `civil_from_days`; all intermediate values are
non-negative for the dates handled here, so the division convention is
immaterial). -/
def civilFromDays (z : Int) : Int × Nat × Nat :=
  let z := z + 719468
  let era : Int := (if 0 ≤ z then z else z - 146096) / 146097
  let doe : Int := z - era * 146097
  let yoe : Int := (doe - doe / 1460 + doe / 36524 - doe / 146096) / 365
  let y : Int := yoe + era * 400
  let doy : Int := doe - (365 * yoe + yoe / 4 - yoe / 100)
  let mp : Int := (5 * doy + 2) / 153
  let dd : Int := doy - (153 * mp + 2) / 5 + 1
  let m : Int := if mp < 10 then mp + 3 else mp - 9
  ((if m ≤ 2 then y + 1 else y), m.toNat, dd.toNat)

/-- Zero-padded decimal of width 2. -/
def pad2 (n : Nat) : String := if n < 10 then "0" ++ toString n else toString n

/-- Zero-padded decimal of width 4 (years of interest are 1000-9999). -/
def pad4 (n : Nat) : String :=
  if n < 10 then "000" ++ toString n
  else if n < 100 then "00" ++ toString n
  else if n < 1000 then "0" ++ toString n
  else toString n

/-- `dt.date().isoformat()`. -/
def isoDate (d : PyDateTime) : String :=
  let (y, m, dd) := civilFromDays d.day
  pad4 y.toNat ++ "-" ++ pad2 m ++ "-" ++ pad2 dd

/-- Rendering of a `tzinfo` UTC offset as `±HH:MM` (empty for naive). -/
def isoOffset : Option Int → String
  | none => ""
  | some o =>
    let sign := if o < 0 then "-" else "+"
    let a := o.natAbs
    sign ++ pad2 (a / 60) ++ ":" ++ pad2 (a % 60)

/-- `dt.isoformat()`: seconds always printed, microseconds only when
non-zero, offset appended for aware datetimes. -/
def isoDateTime (d : PyDateTime) : String :=
  isoDate d ++ "T" ++ pad2 d.hour ++ ":" ++ pad2 d.minute ++ ":" ++ pad2 d.second
    ++ (if d.micro = 0 then "" else "." ++ toString d.micro)
    ++ isoOffset d.off

/-- `_TZ_ABBREV_TO_IANA`, in the source's (insertion) order. -/
def tzAbbrevToIana : List (String × String) :=
  [("pt", "America/Los_Angeles"), ("pst", "America/Los_Angeles"),
   ("pdt", "America/Los_Angeles"),
   ("mt", "America/Denver"), ("mst", "America/Denver"),
   ("mdt", "America/Denver"),
   ("ct", "America/Chicago"), ("cst", "America/Chicago"),
   ("cdt", "America/Chicago"),
   ("et", "America/New_York"), ("est", "America/New_York"),
   ("edt", "America/New_York"),
   ("utc", "UTC"), ("gmt", "UTC")]

/-- `_OFFSET_TO_IANA`, with offsets in minutes. -/
def offsetToIana : List (Int × String) :=
  [(-480, "America/Los_Angeles"), (-420, "America/Los_Angeles"),
   (-360, "America/Chicago"), (-300, "America/New_York"), (0, "UTC")]

/-- The IANA-name half of `_extract_timezone`: scan `text` (lowered) for a
whole-word tz abbreviation, first table entry wins; otherwise map the base
datetime's UTC offset through `_OFFSET_TO_IANA`; otherwise no name.  (The
`tzinfo` half of the source function feeds `astimezone`, which is the
tz-database collaborator modelled by the `localize` parameter elsewhere.) -/
def extractTzName (text : String) (base : PyDateTime) : Option String :=
  let lower := lowerStr text
  match tzAbbrevToIana.find? (fun p => containsWord p.1 lower) with
  | some p => some p.2
  | none =>
    match base.off with
    | some o => (offsetToIana.find? (fun p => p.1 == o)).map (·.2)
    | none => none

/-- Numeric value of an ASCII digit. -/
def digitVal (c : Char) : Nat := c.toNat - 48

/-- Tail of the 12-hour pattern after the hour digits:
`(?::(\d{2}))?\s*(am|pm)\b`.  Returns the captured minutes (None when the
optional group did not participate) and the am/pm flag (`true` = pm).
The optional group is tried first (greedy), falling back to the bare
`\s*(am|pm)\b` alternative, exactly as the backtracking engine does. -/
def tryRest12 (after : List Char) : Option (Option Nat × Bool) :=
  (match after with
   | ':' :: a :: b :: r =>
     if a.isDigit && b.isDigit then
       (match (r.dropWhile isPyWs) with
        | 'a' :: 'm' :: r2 =>
          if boundaryAfter r2 then some (some (digitVal a * 10 + digitVal b), false)
          else none
        | 'p' :: 'm' :: r2 =>
          if boundaryAfter r2 then some (some (digitVal a * 10 + digitVal b), true)
          else none
        | _ => none)
     else none
   | _ => none)
  <|>
  (match (after.dropWhile isPyWs) with
   | 'a' :: 'm' :: r2 => if boundaryAfter r2 then some (none, false) else none
   | 'p' :: 'm' :: r2 => if boundaryAfter r2 then some (none, true) else none
   | _ => none)

/-- Attempt of `_TIME_RE_12H` = `\b(\d{1,2})(?::(\d{2}))?\s*(am|pm)\b` at the
current position (`prevOk` is the `\b` test against the previous character).
`\d{1,2}` is greedy: the two-digit reading is tried before the one-digit
one.  Returns (hour capture, minutes capture, pm?). -/
def try12At (prevOk : Bool) (l : List Char) : Option (Nat × Option Nat × Bool) :=
  if !prevOk then none
  else
    match l with
    | [] => none
    | c1 :: rest =>
      if !c1.isDigit then none
      else
        (match rest with
         | c2 :: r2 =>
           if c2.isDigit then
             (tryRest12 r2).map (fun p => (digitVal c1 * 10 + digitVal c2, p.1, p.2))
           else none
         | [] => none)
        <|> (tryRest12 rest).map (fun p => (digitVal c1, p.1, p.2))

/-- `_TIME_RE_12H.search`: leftmost match wins. -/
def find12 (prev : Option Char) : List Char → Option (Nat × Option Nat × Bool)
  | [] => none
  | c :: rest =>
    match try12At (boundaryOk prev) (c :: rest) with
    | some r => some r
    | none => find12 (some c) rest

/-- Attempt of `_TIME_RE_24H` = `\b(\d{1,2}):(\d{2})\b` at the current
position, greedy two-digit hour first. -/
def try24At (prevOk : Bool) (l : List Char) : Option (Nat × Nat) :=
  if !prevOk then none
  else
    match l with
    | [] => none
    | c1 :: rest =>
      if !c1.isDigit then none
      else
        (match rest with
         | c2 :: ':' :: a :: b :: r =>
           if c2.isDigit && a.isDigit && b.isDigit && boundaryAfter r then
             some (digitVal c1 * 10 + digitVal c2, digitVal a * 10 + digitVal b)
           else none
         | _ => none)
        <|>
        (match rest with
         | ':' :: a :: b :: r =>
           if a.isDigit && b.isDigit && boundaryAfter r then
             some (digitVal c1, digitVal a * 10 + digitVal b)
           else none
         | _ => none)

/-- `_TIME_RE_24H.search`: leftmost match wins. -/
def find24 (prev : Option Char) : List Char → Option (Nat × Nat)
  | [] => none
  | c :: rest =>
    match try24At (boundaryOk prev) (c :: rest) with
    | some r => some r
    | none => find24 (some c) rest

/-- `_extract_time_components(text)`: keyword times first, then the 12-hour
pattern (12am maps to 0, 12pm stays 12, other pm hours get 12 added —
without range validation), then the validated bare 24-hour pattern. -/
def extract_time_components (text : String) : Option Nat × Option Nat :=
  let lower := lowerStr text
  if substrB "noon" lower then (some 12, some 0)
  else if substrB "midnight" lower then (some 0, some 0)
  else if substrB "eod" lower || substrB "end of day" lower then (some 17, some 0)
  else
    match find12 none lower.data with
    | some (h, mi, pm) =>
      let h' := if pm then (if h = 12 then 12 else h + 12)
                else (if h = 12 then 0 else h)
      (some h', some (mi.getD 0))
    | none =>
      match find24 none lower.data with
      | some (h, mi) =>
        if h ≤ 23 && mi ≤ 59 then (some h, some mi) else (none, none)
      | none => (none, none)

/-- `_DAY_OF_WEEK`, in the source's (insertion) order. -/
def dayOfWeekTable : List (String × Nat) :=
  [("monday", 0), ("tuesday", 1), ("wednesday", 2), ("thursday", 3),
   ("friday", 4), ("saturday", 5), ("sunday", 6)]

/-- The weekday-scan of `_infer_datetime`: first table entry (in insertion
order) occurring in the text as a whole word. -/
def findWeekday (lower : String) : Option (String × Nat) :=
  dayOfWeekTable.find? (fun p => containsWord p.1 lower)

/-- Day-resolution steps 1-2 of `_infer_datetime` (source lines 237-256),
acting on the already stripped-and-lowered text and the base instant
localized into the inferred timezone.  Returns the day-resolved datetime
(time fields still those of the base) or `none`. -/
def resolveDay (lower : String) (baseLocal : PyDateTime) : Option PyDateTime :=
  if substrB "today" lower then some baseLocal
  else if substrB "tomorrow" lower then some (baseLocal.addDays 1)
  else
    match findWeekday lower with
    | none => none
    | some (_, targetWd) =>
      let delta0 : Int := Int.emod ((targetWd : Int) - baseLocal.weekday) 7
      let delta1 : Int := if delta0 = 0 then 7 else delta0
      let delta : Int := if containsWord "next" lower then delta1 + 7 else delta1
      some (baseLocal.addDays delta)

/-- `base.replace(tzinfo=timezone.utc)` applied when the base is naive
(source lines 223-225). -/
def awareify (base : PyDateTime) : PyDateTime :=
  if base.off = none then { base with off := some 0 } else base

/-- `_infer_datetime(text, base_dt)`.

External collaborators are parameters:
`localize text base` models `base.astimezone(tzinfo)` for the `tzinfo`
extracted by `_extract_timezone` from `text` (together with the guarding
`try`/`except`, which cannot itself raise); `fallbackParse text baseLocal`
models the whole `dateutil_parser.parse` fallback block including its
timezone fix-up, with `none` for the exception path.

The result is `(dt?, tz_name?)`; `Except.error` models a `ValueError`
escaping from `datetime.replace` when the extracted hour or minute is out
of range. -/
def infer_datetime
    (localize : String → PyDateTime → PyDateTime)
    (fallbackParse : String → PyDateTime → Option PyDateTime)
    (text : String) (baseDt : PyDateTime) :
    Except Unit (Option PyDateTime × Option String) :=
  if pyStrip text = "" then .ok (none, none)
  else
    let base := awareify baseDt
    let tzName := extractTzName text base
    let baseLocal := localize text base
    let lower := lowerStr (pyStrip text)
    match resolveDay lower baseLocal with
    | some dayDt =>
      let hm := extract_time_components lower
      let timed : Except Unit PyDateTime :=
        match hm.1 with
        | some h => dayDt.replaceTime h (hm.2.getD 0)
        | none => .ok { dayDt with hour := 0, minute := 0, second := 0, micro := 0 }
      match timed with
      | .error u => .error u
      | .ok dt =>
        let dt :=
          if dt.off = none then
            { dt with off := baseLocal.off.orElse (fun _ => some 0) }
          else dt
        .ok (some dt, tzName)
    | none =>
      match fallbackParse text baseLocal with
      | some parsed => .ok (some parsed, tzName)
      | none => .ok (none, none)

/-- `_clamp01(x)`: `some q` models `float(x)` succeeding with value `q`
(floats are embedded as rationals), `none` models `float(x)` raising, which
the source catches and turns into `0.0`. -/
def clamp01 : Option ℚ → ℚ
  | none => 0
  | some q => max 0 (min 1 q)

/-- `_normalize_sub_action_key(key)`. -/
def normalize_sub_action_key (key : String) : String :=
  if key = "" then "OTHER"
  else
    let k := pyStrip key
    if k = "" then "OTHER"
    else
      let k := collapseNonAlnum k
      let k := stripUnderscores (collapseUnderscores k)
      if k = "" then "OTHER" else upperStr k

/-- Case-insensitively drop the (lower-case) keyword `kw` from the front of
`t`; `none` when `t` does not start with it. -/
def dropCI : List Char → List Char → Option (List Char)
  | [], t => some t
  | _ :: _, [] => none
  | k :: ks, c :: cs => if c.toLower = k then dropCI ks cs else none

/-- One alternative of the prefix regex: keyword, then `\s*:`, then a greedy
trailing `\s*`; returns the unmatched remainder. -/
def matchKw (kw : String) (t : List Char) : Option (List Char) :=
  match dropCI kw.data t with
  | none => none
  | some t1 =>
    match t1.dropWhile isPyWs with
    | ':' :: r => some (r.dropWhile isPyWs)
    | _ => none

/-- One application of `re.sub(r"^(\s*(re|fwd|fw)\s*:\s*)", "", s, re.I)`:
leading whitespace, then the alternation tried left to right, then `:` with
surrounding whitespace; `none` when the pattern does not match (in which
case `re.sub` returns `s` unchanged and the source loop stops). -/
def stripSubjectPrefixOnce (s : List Char) : Option (List Char) :=
  let t := s.dropWhile isPyWs
  (matchKw "re" t).orElse fun _ =>
    (matchKw "fwd" t).orElse fun _ => matchKw "fw" t

/-- The `while True` loop of `_subject_to_topic`, with explicit fuel.  Every
successful strip consumes at least the matched `:`, so `s.length` rounds of
fuel always suffice and the fuel-exhausted branch is unreachable. -/
def subjectTopicLoop : Nat → List Char → List Char
  | 0, s => s
  | fuel + 1, s =>
    match stripSubjectPrefixOnce s with
    | some r => subjectTopicLoop fuel r
    | none => s

/-- `_subject_to_topic(subject)`. -/
def subject_to_topic (subject : String) : String :=
  let s := (pyStrip subject).data
  ⟨stripEnds isPyWs (subjectTopicLoop s.length s)⟩

/-- `(llm.task_type or "").strip() or None` (source line 414). -/
def stripToNone (t : Option String) : Option String :=
  let s := pyStrip (t.getD "")
  if s = "" then none else some s

/-- The normalization applied to one evidence string before the duplicate
check: strip, collapse whitespace, truncate to 240 characters. -/
def cleanOne (e : String) : String := strTake 240 (collapseWs (pyStrip e))

/-- The evidence loop of `postprocess_triage` (source lines 394-408):
`seen` holds the lower-cased strings already kept, `n` their count. -/
def cleanEvidenceAux (seen : List String) (n : Nat) : List String → List String
  | [] => []
  | e :: rest =>
    let s0 := pyStrip e
    if s0 = "" then cleanEvidenceAux seen n rest
    else
      let s := strTake 240 (collapseWs s0)
      if seen.contains (lowerStr s) then cleanEvidenceAux seen n rest
      else if 3 ≤ n + 1 then [s]
      else s :: cleanEvidenceAux (lowerStr s :: seen) (n + 1) rest

/-- Evidence sanitization: trim, collapse whitespace, cap at 240 characters,
case-insensitive de-duplication, at most 3 entries. -/
def cleanEvidence (l : List String) : List String := cleanEvidenceAux [] 0 l

/-- `PersonRef` (models.py). -/
structure PersonRef where
  email : String
  role : String
deriving Repr, DecidableEq

/-- `DateRef` (models.py). -/
structure DateRef where
  text : String
  iso : Option String := none
  type : String := "other"
deriving Repr, DecidableEq

/-- `MeetingRef` (models.py). -/
structure MeetingRef where
  topic : Option String := none
  startAt : Option String := none
  tz : Option String := none
deriving Repr, DecidableEq

/-- The entity bag (models.py `Entities`).  The `money` and `docs` lists are
carried through `postprocess_triage` untouched and are omitted here as
inert. -/
structure Entities where
  people : List PersonRef := []
  dates : List DateRef := []
  meeting : Option MeetingRef := none
deriving Repr, DecidableEq

/-- `MajorCategory` (models.py), a closed enumeration. -/
inductive MajorCategory
  | core_communication
  | decisions_and_approvals
  | schedule_and_time
  | documents_and_review
  | financial_and_admin
  | people_and_process
  | information_and_org
  | learning_and_awareness
  | social_and_people
  | meta_and_systems
  | other
deriving Repr, DecidableEq

/-- `MajorCategory.value`: the enum's string value. -/
def MajorCategory.value : MajorCategory → String
  | .core_communication => "core_communication"
  | .decisions_and_approvals => "decisions_and_approvals"
  | .schedule_and_time => "schedule_and_time"
  | .documents_and_review => "documents_and_review"
  | .financial_and_admin => "financial_and_admin"
  | .people_and_process => "people_and_process"
  | .information_and_org => "information_and_org"
  | .learning_and_awareness => "learning_and_awareness"
  | .social_and_people => "social_and_people"
  | .meta_and_systems => "meta_and_systems"
  | .other => "other"

/-- The search loop of `_fill_sender`: find the first person whose email
matches the sender case-insensitively; if found, set its role to "sender"
when the role is empty and return the updated list (`some`), else `none`. -/
def fillSenderAux (s : String) : List PersonRef → Option (List PersonRef)
  | [] => none
  | p :: rest =>
    if lowerStr p.email = lowerStr s then
      some ((if p.role = "" then { p with role := "sender" } else p) :: rest)
    else (fillSenderAux s rest).map (p :: ·)

/-- `_fill_sender`: `none` (or an empty string, both falsy in Python) means
the sender address is unknown and the list is left unchanged. -/
def fill_sender (senderEmail : Option String) (people : List PersonRef) :
    List PersonRef :=
  match senderEmail with
  | none => people
  | some s =>
    if s = "" then people
    else
      match fillSenderAux s people with
      | some l => l
      | none => ⟨s, "sender"⟩ :: people

/-- `d.iso and str(d.iso).strip()` — the existing-ISO test. -/
def isoNonBlank : Option String → Bool
  | none => false
  | some i => !(pyStrip i = "")

/-- `has_time` of `_fill_date_isos` (source line 335): a time component was
extracted from the raw text, or the bare 24-hour regex matches it. -/
def hasTimeB (text : String) : Bool :=
  (extract_time_components text).1.isSome || (find24 none text.data).isSome

/-- The loop of `_fill_date_isos`, threading the "best" instant and zone
name accumulators.  `isoparse i` models `dateutil_parser.isoparse(i)`
(`none` = the exception swallowed by the source's `try`/`except`). -/
def fill_dates_aux
    (localize : String → PyDateTime → PyDateTime)
    (fallbackParse : String → PyDateTime → Option PyDateTime)
    (isoparse : String → Option PyDateTime)
    (baseDt : PyDateTime) (best : Option PyDateTime) (bestTz : Option String) :
    List DateRef → Except Unit (List DateRef × Option String × Option PyDateTime)
  | [] => .ok ([], bestTz, best)
  | d :: rest =>
    if isoNonBlank d.iso then
      let best' :=
        match best with
        | some b => some b
        | none =>
          match d.iso with
          | some i => isoparse i
          | none => none
      match fill_dates_aux localize fallbackParse isoparse baseDt best' bestTz rest with
      | .error u => .error u
      | .ok (ds, tz, b) => .ok (d :: ds, tz, b)
    else
      match infer_datetime localize fallbackParse d.text baseDt with
      | .error u => .error u
      | .ok (none, _) =>
        match fill_dates_aux localize fallbackParse isoparse baseDt best bestTz rest with
        | .error u => .error u
        | .ok (ds, tz, b) => .ok (d :: ds, tz, b)
      | .ok (some dt, tzn) =>
        let ht := hasTimeB d.text
        let d' := { d with iso := some (if ht then isoDateTime dt else isoDate dt) }
        let bp := if best.isNone && ht then (some dt, tzn) else (best, bestTz)
        match fill_dates_aux localize fallbackParse isoparse baseDt bp.1 bp.2 rest with
        | .error u => .error u
        | .ok (ds, tz, b) => .ok (d' :: ds, tz, b)

/-- `_fill_date_isos`: returns the updated date entities together with
`(best_tz_name, best_dt)`. -/
def fill_date_isos
    (localize : String → PyDateTime → PyDateTime)
    (fallbackParse : String → PyDateTime → Option PyDateTime)
    (isoparse : String → Option PyDateTime)
    (baseDt : PyDateTime) (dates : List DateRef) :
    Except Unit (List DateRef × Option String × Option PyDateTime) :=
  fill_dates_aux localize fallbackParse isoparse baseDt none none dates

/-- `not (x or "").strip()` — the blank test on optional string fields. -/
def blankOpt (o : Option String) : Bool := pyStrip (o.getD "") = ""

/-- `_fill_meeting`: create/complete the meeting entity when the decision is
about scheduling; only blank fields are filled. -/
def fill_meeting (subject : String) (cat : MajorCategory) (subKey : String)
    (meeting : Option MeetingRef) (tzName : Option String)
    (bestDt : Option PyDateTime) : Option MeetingRef :=
  let wants : Bool :=
    decide (cat.value = "schedule_and_time")
      || List.isPrefixOf "SCHEDULE_".data (upperStr subKey).data
  if !wants then meeting
  else
    let m := meeting.getD {}
    let m := if blankOpt m.topic then { m with topic := some (subject_to_topic subject) } else m
    let m :=
      match bestDt with
      | some b => if blankOpt m.startAt then { m with startAt := some (isoDateTime b) } else m
      | none => m
    let m :=
      match tzName with
      | some t => if blankOpt m.tz && !(t = "") then { m with tz := some t } else m
      | none => m
    some m

/-- The draft decision (`LLMTriageOutput`): the untrusted inference output
consumed by `postprocess_triage`. -/
structure LLMOut where
  majorCategory : MajorCategory
  subActionKey : String
  replyRequired : Bool
  explicitTask : Bool
  taskType : Option String := none
  confidence : ℚ
  reason : String := ""
  evidence : List String := []
  entities : Entities := {}
deriving Repr, DecidableEq

/-- The assembled response (`EmailTriageResponse`). -/
structure TriageResponse where
  messageId : String
  threadId : Option String
  majorCategory : MajorCategory
  subActionKey : String
  replyRequired : Bool
  explicitTask : Bool
  taskType : Option String
  confidence : ℚ
  reason : String
  evidence : List String
  entities : Entities
deriving Repr, DecidableEq

/-- `postprocess_triage`: sanitize the draft in source order (confidence,
action key, reason, evidence, task type), then backfill sender, date ISOs
and meeting, then assemble the response.  `baseDt` is the reference instant
(`parsed_email.sent_at or parsed_email.internal_date or now`, resolved by
the caller). -/
def postprocess_triage
    (localize : String → PyDateTime → PyDateTime)
    (fallbackParse : String → PyDateTime → Option PyDateTime)
    (isoparse : String → Option PyDateTime)
    (msgId : String) (threadId : Option String)
    (fromEmail : Option String) (subject : String)
    (baseDt : PyDateTime) (llm : LLMOut) : Except Unit TriageResponse :=
  let conf := clamp01 (some llm.confidence)
  let subKey := normalize_sub_action_key llm.subActionKey
  let reason := pyStrip llm.reason
  let ev := cleanEvidence llm.evidence
  let taskType := if llm.explicitTask then stripToNone llm.taskType else none
  let people := fill_sender fromEmail llm.entities.people
  match fill_date_isos localize fallbackParse isoparse baseDt llm.entities.dates with
  | .error u => .error u
  | .ok (dates, tzName, bestDt) =>
    let meeting := fill_meeting subject llm.majorCategory subKey llm.entities.meeting tzName bestDt
    .ok { messageId := msgId, threadId := threadId,
          majorCategory := llm.majorCategory, subActionKey := subKey,
          replyRequired := llm.replyRequired, explicitTask := llm.explicitTask,
          taskType := taskType, confidence := conf, reason := reason,
          evidence := ev,
          entities := { people := people, dates := dates, meeting := meeting } }

/-- Modelled from the spec: a ranked recommended UI action of the draft
decision (key, label, kind, rank).  The repository code that declares and
sanitizes this list is not among the provided sources — only the tests
reference it — so it is modelled from the specification. -/
structure RecommendedAction where
  key : String
  label : String
  kind : String
  rank : Int
deriving Repr, DecidableEq

/-- Modelled from the spec: per-entry sanitization of a recommended action —
upper-case and trim `kind`, forcing "SECONDARY" unless the result is one of
PRIMARY/SECONDARY/DANGER; trim `key` and `label`; keep the model rank. -/
def sanitizeActionEntry (a : RecommendedAction) : RecommendedAction :=
  let k := upperStr (pyStrip a.kind)
  { key := pyStrip a.key, label := pyStrip a.label,
    kind := if k = "PRIMARY" ∨ k = "SECONDARY" ∨ k = "DANGER" then k else "SECONDARY",
    rank := a.rank }

/-- Stable insertion by rank: the new element lands before the first
existing element of rank greater than or equal to its own.  `sortByRank`
inserts the head (the earliest original element) into the sorted tail, so an
element always ends up before the equal-ranked elements that followed it in
the input — a stable sort. -/
def insertByRank (a : RecommendedAction) : List RecommendedAction → List RecommendedAction
  | [] => [a]
  | b :: l => if a.rank ≤ b.rank then a :: b :: l else b :: insertByRank a l

/-- Modelled from the spec: stable sort of the sanitized entries by the
model-provided rank. -/
def sortByRank : List RecommendedAction → List RecommendedAction
  | [] => []
  | a :: l => insertByRank a (sortByRank l)

/-- Modelled from the spec: re-number ranks sequentially starting at `n`. -/
def renumberFrom (n : Int) : List RecommendedAction → List RecommendedAction
  | [] => []
  | a :: l => { a with rank := n } :: renumberFrom (n + 1) l

/-- Modelled from the spec: full sanitization of a recommended-actions list —
sanitize each entry, stable-sort by the model rank, re-number from 1. -/
def sanitizeActions (l : List RecommendedAction) : List RecommendedAction :=
  renumberFrom 1 (sortByRank (l.map sanitizeActionEntry))

/-- Is a sanitized action kind one of the three allowed values? -/
def kindOk (a : RecommendedAction) : Bool :=
  a.kind == "PRIMARY" || a.kind == "SECONDARY" || a.kind == "DANGER"

/-- Specification-side characterization of the "best" instant/zone tracked
by `_fill_date_isos`: scanning the date entities in declaration order, the
first one that either already carries a non-blank ISO value that `isoparse`
accepts (zone name `none` in that case) or whose raw text resolves with a
time-of-day supplies the pair.  (The error branch is unreachable whenever
`_fill_date_isos` itself returns without raising, which is the only case the
characterization theorem speaks about.) -/
def bestOf
    (localize : String → PyDateTime → PyDateTime)
    (fallbackParse : String → PyDateTime → Option PyDateTime)
    (isoparse : String → Option PyDateTime)
    (baseDt : PyDateTime) : List DateRef → Option PyDateTime × Option String
  | [] => (none, none)
  | d :: rest =>
    if isoNonBlank d.iso then
      match d.iso with
      | some i =>
        match isoparse i with
        | some p => (some p, none)
        | none => bestOf localize fallbackParse isoparse baseDt rest
      | none => bestOf localize fallbackParse isoparse baseDt rest
    else
      match infer_datetime localize fallbackParse d.text baseDt with
      | .error _ => (none, none)
      | .ok (none, _) => bestOf localize fallbackParse isoparse baseDt rest
      | .ok (some dt, tzn) =>
        if hasTimeB d.text then (some dt, tzn)
        else bestOf localize fallbackParse isoparse baseDt rest

/-- Concrete `astimezone` collaborator used in closed evaluations: the
identity conversion.  It models the tz database faithfully for the inputs
used below: their texts carry no timezone abbreviation and their base
instants are UTC, so the extracted `tzinfo` is the base's own zone and
`astimezone` is the identity. -/
def idLocalize : String → PyDateTime → PyDateTime := fun _ b => b

/-- Concrete `dateutil_parser.parse` fallback collaborator used in closed
evaluations: always failing.  It is only ever reached by texts the relative
resolver already handled, so its value is immaterial there. -/
def noFallback : String → PyDateTime → Option PyDateTime := fun _ _ => none

/-- Concrete `dateutil_parser.isoparse` collaborator used in closed
evaluations whose date entities carry no pre-existing ISO value. -/
def noIsoparse : String → Option PyDateTime := fun _ => none

/-- Concrete `dateutil_parser.isoparse` collaborator for the single input
"2030-01-02": `isoparse` accepts it and yields the naive
`datetime(2030, 1, 2)` (day number 21916 from 1970-01-01). -/
def isoparse20300102 : String → Option PyDateTime :=
  fun s => if s = "2030-01-02" then some ⟨21916, 0, 0, 0, 0, none⟩ else none

/-- Monday 2024-01-29 10:00 UTC (day number 19751 from 1970-01-01), used as
a concrete reference instant; its weekday is 0 (Monday). -/
def mondayBase : PyDateTime := ⟨19751, 10, 0, 0, 0, some 0⟩

/-! ## Helper lemmas -/

theorem string_eq_iff_data (s t : String) : s = t ↔ s.data = t.data :=
  ⟨fun h => by rw [h], fun h => by cases s; cases t; exact congrArg String.mk h⟩

theorem head?_dropWhile_not {p : Char → Bool} :
    ∀ l : List Char, ∀ c, (l.dropWhile p).head? = some c → p c = false := by
  intro l
  induction l with
  | nil => intro c h; simp [List.dropWhile] at h
  | cons a t ih =>
    intro c h
    rw [List.dropWhile_cons] at h
    by_cases hp : p a
    · rw [if_pos hp] at h; exact ih c h
    · rw [if_neg hp] at h
      simp at h
      subst h
      exact Bool.eq_false_iff.mpr hp

theorem getLast?_stripEnds_not {p : Char → Bool} (l : List Char) (c : Char)
    (h : (stripEnds p l).getLast? = some c) : p c = false := by
  unfold stripEnds at h
  rw [List.getLast?_reverse] at h
  exact head?_dropWhile_not _ c h

theorem head?_stripEnds_not {p : Char → Bool} (l : List Char) (c : Char)
    (h : (stripEnds p l).head? = some c) : p c = false := by
  unfold stripEnds at h
  rw [List.head?_reverse] at h
  set a := (l.dropWhile p).reverse with ha
  obtain ⟨u, hu⟩ := List.dropWhile_suffix (l := a) (p := p)
  have hne : a.dropWhile p ≠ [] := by
    intro he; rw [he] at h; simp at h
  have h2 : a.getLast? = some c := by
    rw [← hu, List.getLast?_append_of_ne_nil _ hne]; exact h
  rw [ha, List.getLast?_reverse] at h2
  exact head?_dropWhile_not _ c h2

theorem mem_stripEnds {p : Char → Bool} {l : List Char} {c : Char}
    (h : c ∈ stripEnds p l) : c ∈ l := by
  unfold stripEnds at h
  rw [List.mem_reverse] at h
  have h1 := (List.dropWhile_sublist (l := (l.dropWhile p).reverse) (p := p)).mem h
  rw [List.mem_reverse] at h1
  exact (List.dropWhile_sublist (l := l) (p := p)).mem h1

/-! ## C6: confidence clamp -/

/-- C6: every sanitized confidence lies in [0, 1]; numeric inputs are
clamped (with `clamp(-5) = 0`, `clamp(1.7) = 1`, in-range values
unchanged); non-numeric / unparsable inputs (the `none` case, Python's
`float(x)` raising) yield 0. -/
theorem confidence_clamp_C6 (x : Option ℚ) :
    0 ≤ clamp01 x ∧ clamp01 x ≤ 1
      ∧ (∀ q : ℚ, x = some q → 0 ≤ q → q ≤ 1 → clamp01 x = q)
      ∧ clamp01 (some (-5)) = 0 ∧ clamp01 (some (17 / 10)) = 1
      ∧ clamp01 none = 0 := by
  refine ⟨?_, ?_, ?_, by norm_num [clamp01], by norm_num [clamp01], rfl⟩
  · cases x with
    | none => simp [clamp01]
    | some q => exact le_max_left _ _
  · cases x with
    | none => norm_num [clamp01]
    | some q =>
      simp only [clamp01]
      exact max_le (by norm_num) (min_le_left _ _)
  · intro q hx h0 h1
    subst hx
    simp only [clamp01]
    rw [min_eq_right h1, max_eq_right h0]

/-- Witness for C6 at the in-range input 1/2. -/
theorem confidence_clamp_C6_witness :
    (some (1 / 2 : ℚ) = some (1 / 2 : ℚ)) ∧ (0 : ℚ) ≤ 1 / 2 ∧ (1 / 2 : ℚ) ≤ 1
      ∧ clamp01 (some (1 / 2)) = 1 / 2 :=
  ⟨rfl, by norm_num, by norm_num,
    (confidence_clamp_C6 (some (1 / 2))).2.2.1 (1 / 2) rfl (by norm_num) (by norm_num)⟩

/-! ## C10: the explicit-task gate on task_type -/

/-- C10: in every assembled response, a false `explicit_task` flag forces
`task_type` to null; a true flag yields the draft value trimmed, or null
when absent or blank (`stripToNone`). -/
theorem task_type_gate_C10
    (localize : String → PyDateTime → PyDateTime)
    (fallbackParse : String → PyDateTime → Option PyDateTime)
    (isoparse : String → Option PyDateTime)
    (msgId : String) (threadId : Option String)
    (fromEmail : Option String) (subject : String)
    (baseDt : PyDateTime) (llm : LLMOut) (resp : TriageResponse)
    (h : postprocess_triage localize fallbackParse isoparse msgId threadId
          fromEmail subject baseDt llm = .ok resp) :
    (llm.explicitTask = false → resp.taskType = none)
      ∧ (llm.explicitTask = true → resp.taskType = stripToNone llm.taskType) := by
  unfold postprocess_triage at h
  cases hfd : fill_date_isos localize fallbackParse isoparse baseDt llm.entities.dates with
  | error u => rw [hfd] at h; cases h
  | ok tr =>
    obtain ⟨ds, tz, bd⟩ := tr
    rw [hfd] at h
    cases h
    constructor
    · intro he; simp [he]
    · intro he; simp [he]

/-- Witness for C10 at a concrete draft with `explicit_task = false` and a
non-empty draft `task_type`. -/
theorem task_type_gate_C10_witness :
    postprocess_triage idLocalize noFallback noIsoparse "m" none none "S" mondayBase
        { majorCategory := .other, subActionKey := "", replyRequired := false,
          explicitTask := false, taskType := some " call x ", confidence := 0,
          reason := "", evidence := [], entities := {} }
      = .ok { messageId := "m", threadId := none, majorCategory := .other,
              subActionKey := "OTHER", replyRequired := false, explicitTask := false,
              taskType := none, confidence := 0, reason := "", evidence := [],
              entities := { people := [], dates := [], meeting := none } }
      ∧ ({ messageId := "m", threadId := none, majorCategory := .other,
           subActionKey := "OTHER", replyRequired := false, explicitTask := false,
           taskType := none, confidence := 0, reason := "", evidence := [],
           entities := { people := [], dates := [], meeting := none } } :
            TriageResponse).taskType = none :=
  ⟨rfl,
    (task_type_gate_C10 idLocalize noFallback noIsoparse "m" none none "S" mondayBase
      { majorCategory := .other, subActionKey := "", replyRequired := false,
        explicitTask := false, taskType := some " call x ", confidence := 0,
        reason := "", evidence := [], entities := {} } _ rfl).1 rfl⟩

/-! ## C2: date-ISO backfill raises on "Friday 13pm" -/

/-- C2 (failing input): the 12-hour regex accepts "13pm" and maps it to
hour 25, which `datetime.replace` rejects with a `ValueError` — so
`_fill_date_isos`, and with it the whole of `postprocess_triage`, raises
on a date entity with raw text "Friday 13pm" and no ISO, instead of leaving
the ISO absent as the claim requires. -/
theorem date_iso_backfill_raises_C2 :
    extract_time_components "Friday 13pm" = (some 25, some 0)
      ∧ infer_datetime idLocalize noFallback "Friday 13pm" mondayBase = .error ()
      ∧ fill_date_isos idLocalize noFallback noIsoparse mondayBase
          [{ text := "Friday 13pm", iso := none, type := "other" }] = .error ()
      ∧ postprocess_triage idLocalize noFallback noIsoparse "m" none none "S" mondayBase
          { majorCategory := .other, subActionKey := "", replyRequired := false,
            explicitTask := false, taskType := none, confidence := 0, reason := "",
            evidence := [],
            entities := { people := [],
                          dates := [{ text := "Friday 13pm", iso := none, type := "other" }],
                          meeting := none } }
        = .error () :=
  ⟨by decide, rfl, rfl, rfl⟩

/-! ## C8: evidence sanitization -/

theorem cleanEvidenceAux_length :
    ∀ (l : List String) (seen : List String) (n : Nat), n ≤ 2 →
      (cleanEvidenceAux seen n l).length ≤ 3 - n := by
  intro l
  induction l with
  | nil => intro seen n _; simp [cleanEvidenceAux]
  | cons e rest ih =>
    intro seen n hn
    simp only [cleanEvidenceAux]
    split
    · exact ih seen n hn
    · split
      · exact ih seen n hn
      · split
        · simpa using by omega
        · have h2 : n + 1 ≤ 2 := by omega
          have := ih (lowerStr (strTake 240 (collapseWs (pyStrip e))) :: seen) (n + 1) h2
          simp only [List.length_cons]
          omega

theorem cleanEvidenceAux_le240 :
    ∀ (l : List String) (seen : List String) (n : Nat),
      (cleanEvidenceAux seen n l).all (fun s => decide (s.length ≤ 240)) = true := by
  intro l
  induction l with
  | nil => intro seen n; rfl
  | cons e rest ih =>
    intro seen n
    simp only [cleanEvidenceAux]
    split
    · exact ih seen n
    · split
      · exact ih seen n
      · have hlen : (strTake 240 (collapseWs (pyStrip e))).length ≤ 240 := by
          show (List.take 240 (collapseWs (pyStrip e)).data).length ≤ 240
          exact List.length_take_le _ _
        split
        · simp [hlen]
        · simp only [List.all_cons, Bool.and_eq_true, decide_eq_true_eq]
          exact ⟨hlen, ih _ _⟩

theorem cleanEvidenceAux_mem_notSeen :
    ∀ (l : List String) (seen : List String) (n : Nat) (x : String),
      x ∈ cleanEvidenceAux seen n l → lowerStr x ∉ seen := by
  intro l
  induction l with
  | nil => intro seen n x hx; simp [cleanEvidenceAux] at hx
  | cons e rest ih =>
    intro seen n x hx
    simp only [cleanEvidenceAux] at hx
    split at hx
    · exact ih seen n x hx
    · split at hx
      · exact ih seen n x hx
      · next hcon =>
        have hnot : lowerStr (strTake 240 (collapseWs (pyStrip e))) ∉ seen := by
          simpa using hcon
        split at hx
        · simp at hx
          subst hx
          exact hnot
        · rcases List.mem_cons.mp hx with h | h
          · subst h
            exact hnot
          · have := ih _ _ x h
            intro hmem
            exact this (List.mem_cons_of_mem _ hmem)

theorem cleanEvidenceAux_pairwise :
    ∀ (l : List String) (seen : List String) (n : Nat),
      List.Pairwise (fun a b => lowerStr a ≠ lowerStr b) (cleanEvidenceAux seen n l) := by
  intro l
  induction l with
  | nil => intro seen n; simp [cleanEvidenceAux]
  | cons e rest ih =>
    intro seen n
    simp only [cleanEvidenceAux]
    split
    · exact ih seen n
    · split
      · exact ih seen n
      · split
        · simp
        · refine List.Pairwise.cons ?_ (ih _ _)
          intro y hy
          have := cleanEvidenceAux_mem_notSeen rest _ _ y hy
          intro he
          exact this (by rw [← he]; exact List.mem_cons_self _ _)

theorem cleanEvidenceAux_sublist :
    ∀ (l : List String) (seen : List String) (n : Nat),
      List.Sublist (cleanEvidenceAux seen n l) (l.map cleanOne) := by
  intro l
  induction l with
  | nil => intro seen n; simp [cleanEvidenceAux]
  | cons e rest ih =>
    intro seen n
    simp only [cleanEvidenceAux, List.map_cons]
    split
    · exact (ih seen n).cons _
    · split
      · exact (ih seen n).cons _
      · split
        · exact (List.nil_sublist _).cons₂ _
        · exact (ih _ _).cons₂ _

/-- C8: evidence sanitization keeps at most 3 entries, each at most 240
characters, case-insensitively distinct, each the trimmed/collapsed/
truncated form of an input entry in input order (a sublist of the cleaned
inputs); 10 case variants of one sentence collapse to exactly one entry. -/
theorem evidence_sanitization_C8 (l : List String) :
    (cleanEvidence l).length ≤ 3
      ∧ (cleanEvidence l).all (fun s => decide (s.length ≤ 240)) = true
      ∧ List.Pairwise (fun a b => lowerStr a ≠ lowerStr b) (cleanEvidence l)
      ∧ List.Sublist (cleanEvidence l) (l.map cleanOne)
      ∧ cleanEvidence
          ["Can you confirm Friday at 2pm PT works?",
           "can you confirm friday at 2pm pt works?",
           "CAN YOU CONFIRM FRIDAY AT 2PM PT WORKS?",
           "Can You Confirm Friday At 2pm Pt Works?",
           "cAn you confirm friday at 2pm pt works?",
           "caN you confirm friday at 2pm pt works?",
           "can You confirm friday at 2pm pt works?",
           "can yOu confirm friday at 2pm pt works?",
           "can yoU confirm friday at 2pm pt works?",
           "can you Confirm friday at 2pm pt works?"]
        = ["Can you confirm Friday at 2pm PT works?"]
      ∧ ("Can you confirm Friday at 2pm PT works?" : String).length ≤ 240 := by
  refine ⟨?_, cleanEvidenceAux_le240 l [] 0, cleanEvidenceAux_pairwise l [] 0,
    cleanEvidenceAux_sublist l [] 0, by decide, by decide⟩
  have := cleanEvidenceAux_length l [] 0 (by omega)
  simpa using this
/-! ## C4: recommended-actions sanitization (spec-modelled) -/

theorem insertByRank_perm (a : RecommendedAction) (l : List RecommendedAction) :
    List.Perm (insertByRank a l) (a :: l) := by
  induction l with
  | nil => exact List.Perm.refl _
  | cons b t ih =>
    simp only [insertByRank]
    split
    · exact List.Perm.refl _
    · exact (ih.cons b).trans (List.Perm.swap a b t)

theorem sortByRank_perm (l : List RecommendedAction) : List.Perm (sortByRank l) l := by
  induction l with
  | nil => exact List.Perm.refl _
  | cons a t ih =>
    exact (insertByRank_perm a (sortByRank t)).trans (ih.cons a)

theorem mem_insertByRank {x a : RecommendedAction} {l : List RecommendedAction}
    (h : x ∈ insertByRank a l) : x = a ∨ x ∈ l := by
  have := (insertByRank_perm a l).mem_iff.mp h
  simpa using this

theorem pairwise_insertByRank (a : RecommendedAction) (l : List RecommendedAction)
    (h : List.Pairwise (fun x y => x.rank ≤ y.rank) l) :
    List.Pairwise (fun x y => x.rank ≤ y.rank) (insertByRank a l) := by
  induction l with
  | nil => simp [insertByRank]
  | cons b t ih =>
    simp only [insertByRank]
    split
    · next hab =>
      refine List.Pairwise.cons ?_ h
      intro y hy
      rcases List.mem_cons.mp hy with rfl | hy
      · exact hab
      · exact le_trans hab ((List.pairwise_cons.mp h).1 y hy)
    · next hab =>
      have hba : b.rank ≤ a.rank := by omega
      refine List.Pairwise.cons ?_ (ih (List.pairwise_cons.mp h).2)
      intro y hy
      rcases mem_insertByRank hy with rfl | hy
      · exact hba
      · exact (List.pairwise_cons.mp h).1 y hy

theorem pairwise_sortByRank (l : List RecommendedAction) :
    List.Pairwise (fun x y => x.rank ≤ y.rank) (sortByRank l) := by
  induction l with
  | nil => simp [sortByRank]
  | cons a t ih => exact pairwise_insertByRank a (sortByRank t) ih

theorem filter_insertByRank_ne (a : RecommendedAction) (l : List RecommendedAction)
    (r : Int) (h : a.rank ≠ r) :
    (insertByRank a l).filter (fun x => x.rank == r)
      = l.filter (fun x => x.rank == r) := by
  have hbeq : (a.rank == r) = false := beq_eq_false_iff_ne.mpr h
  induction l with
  | nil => simp [insertByRank, List.filter, hbeq]
  | cons b t ih =>
    simp only [insertByRank]
    split
    · simp [List.filter_cons, hbeq]
    · simp only [List.filter_cons, ih]

theorem filter_insertByRank_eq (a : RecommendedAction) (l : List RecommendedAction)
    (r : Int) (ha : a.rank = r)
    (hs : List.Pairwise (fun x y => x.rank ≤ y.rank) l) :
    (insertByRank a l).filter (fun x => x.rank == r)
      = a :: l.filter (fun x => x.rank == r) := by
  have hbeq : (a.rank == r) = true := beq_iff_eq.mpr ha
  induction l with
  | nil => simp [insertByRank, List.filter, hbeq]
  | cons b t ih =>
    simp only [insertByRank]
    split
    · simp [List.filter_cons, hbeq]
    · next hab =>
      have hbr : (b.rank == r) = false := by
        apply beq_eq_false_iff_ne.mpr
        omega
      simp [List.filter_cons, hbr, ih (List.pairwise_cons.mp hs).2]

theorem filter_sortByRank (l : List RecommendedAction) (r : Int) :
    (sortByRank l).filter (fun x => x.rank == r)
      = l.filter (fun x => x.rank == r) := by
  induction l with
  | nil => rfl
  | cons a t ih =>
    by_cases ha : a.rank = r
    · rw [sortByRank, filter_insertByRank_eq a _ r ha (pairwise_sortByRank t), ih,
        List.filter_cons]
      simp [ha]
    · rw [sortByRank, filter_insertByRank_ne a _ r ha, ih, List.filter_cons]
      simp [ha]

theorem renumberFrom_map_rank (l : List RecommendedAction) :
    ∀ n : Int, (renumberFrom n l).map (fun a => a.rank)
      = (List.range l.length).map (fun i : Nat => n + (i : Int)) := by
  induction l with
  | nil => intro n; rfl
  | cons a t ih =>
    intro n
    have h1 : List.range (t.length + 1) = 0 :: (List.range t.length).map Nat.succ :=
      List.range_succ_eq_map t.length
    simp only [renumberFrom, List.map_cons, List.length_cons, h1, List.map_map]
    rw [ih (n + 1)]
    congr 1
    · simp
    · apply List.map_congr_left
      intro i _
      simp only [Function.comp_apply]
      push_cast
      ring

theorem mem_renumberFrom_kind (l : List RecommendedAction) :
    ∀ (n : Int) (x : RecommendedAction), x ∈ renumberFrom n l →
      ∃ b ∈ l, x.kind = b.kind := by
  induction l with
  | nil => intro n x hx; simp [renumberFrom] at hx
  | cons a t ih =>
    intro n x hx
    rcases List.mem_cons.mp hx with rfl | hx
    · exact ⟨a, List.mem_cons_self _ _, rfl⟩
    · obtain ⟨b, hb, hk⟩ := ih (n + 1) x hx
      exact ⟨b, List.mem_cons_of_mem _ hb, hk⟩

theorem kindOk_sanitizeActionEntry (a : RecommendedAction) :
    kindOk (sanitizeActionEntry a) = true := by
  simp only [sanitizeActionEntry, kindOk]
  split
  · next h =>
    rcases h with h | h | h <;> simp [h]
  · simp

/-- C4 (spec-modelled): after sanitization every action kind is one of
PRIMARY/SECONDARY/DANGER, the output ranks are exactly 1..n, and before
re-numbering the entries are the stable sort of the sanitized inputs by the
model rank (sorted, a permutation of them, and every rank class kept in
input order); in particular input ranks [5, 1, 1] give output ranks
[1, 2, 3] with the two tied entries in their original order. -/
theorem recommended_actions_C4 (l : List RecommendedAction) :
    (sanitizeActions l).all kindOk = true
      ∧ (sanitizeActions l).map (fun a => a.rank)
          = (List.range l.length).map (fun i : Nat => (1 : Int) + (i : Int))
      ∧ List.Pairwise (fun x y => x.rank ≤ y.rank) (sortByRank (l.map sanitizeActionEntry))
      ∧ (∀ r : Int, (sortByRank (l.map sanitizeActionEntry)).filter (fun x => x.rank == r)
          = (l.map sanitizeActionEntry).filter (fun x => x.rank == r))
      ∧ List.Perm (sortByRank (l.map sanitizeActionEntry)) (l.map sanitizeActionEntry)
      ∧ sanitizeActions
          [{ key := "a", label := "A", kind := "primary", rank := 5 },
           { key := "b", label := "B", kind := "weird", rank := 1 },
           { key := "c", label := "C", kind := "danger", rank := 1 }]
        = [{ key := "b", label := "B", kind := "SECONDARY", rank := 1 },
           { key := "c", label := "C", kind := "DANGER", rank := 2 },
           { key := "a", label := "A", kind := "PRIMARY", rank := 3 }] := by
  refine ⟨?_, ?_, pairwise_sortByRank _, filter_sortByRank _, sortByRank_perm _, by decide⟩
  · rw [List.all_eq_true]
    intro x hx
    obtain ⟨b, hb, hk⟩ := mem_renumberFrom_kind _ 1 x hx
    have hb' : b ∈ l.map sanitizeActionEntry := (sortByRank_perm _).subset hb
    obtain ⟨c, _, rfl⟩ := List.mem_map.mp hb'
    have := kindOk_sanitizeActionEntry c
    simp only [kindOk] at this ⊢
    rw [hk]
    exact this
  · unfold sanitizeActions
    rw [renumberFrom_map_rank _ 1]
    have hlen : (sortByRank (l.map sanitizeActionEntry)).length = l.length := by
      rw [(sortByRank_perm _).length_eq, List.length_map]
    rw [hlen]


/-! ## C5: sender backfill -/

theorem fillSenderAux_none_countP (e : String) :
    ∀ people : List PersonRef, fillSenderAux e people = none →
      people.countP (fun p => lowerStr p.email == lowerStr e) = 0 := by
  intro people
  induction people with
  | nil => intro _; rfl
  | cons p rest ih =>
    intro h
    simp only [fillSenderAux] at h
    split at h
    · cases h
    · next hne =>
      have hrest : fillSenderAux e rest = none := by
        cases hr : fillSenderAux e rest with
        | none => rfl
        | some l => rw [hr] at h; cases h
      rw [List.countP_cons]
      have : (lowerStr p.email == lowerStr e) = false := beq_eq_false_iff_ne.mpr hne
      simp [this, ih hrest]

theorem fillSenderAux_some_countP (e : String) :
    ∀ (people l : List PersonRef), fillSenderAux e people = some l →
      l.countP (fun p => lowerStr p.email == lowerStr e)
          = people.countP (fun p => lowerStr p.email == lowerStr e)
        ∧ 1 ≤ people.countP (fun p => lowerStr p.email == lowerStr e) := by
  intro people
  induction people with
  | nil => intro l h; cases h
  | cons p rest ih =>
    intro l h
    simp only [fillSenderAux] at h
    split at h
    · next heq =>
      have hbeq : (lowerStr p.email == lowerStr e) = true := beq_iff_eq.mpr heq
      have hit : (lowerStr (if p.role = "" then { p with role := "sender" } else p).email
          == lowerStr e) = true := by
        split <;> exact hbeq
      cases h
      simp only [List.countP_cons, hit, hbeq, eq_self_iff_true, if_true]
      exact ⟨trivial, by omega⟩
    · next hne =>
      have hbeq : (lowerStr p.email == lowerStr e) = false := beq_eq_false_iff_ne.mpr hne
      cases hr : fillSenderAux e rest with
      | none => rw [hr] at h; cases h
      | some l0 =>
        rw [hr] at h
        cases h
        obtain ⟨h1, h2⟩ := ih l0 hr
        simp only [List.countP_cons, hbeq, Bool.false_eq_true, if_false, h1]
        exact ⟨trivial, by omega⟩

theorem fillSenderAux_idem (e : String) :
    ∀ (people l : List PersonRef), fillSenderAux e people = some l →
      fillSenderAux e l = some l := by
  intro people
  induction people with
  | nil => intro l h; cases h
  | cons p rest ih =>
    intro l h
    simp only [fillSenderAux] at h
    split at h
    · next heq =>
      cases h
      by_cases hrole : p.role = ""
      · rw [if_pos hrole]
        simp only [fillSenderAux]
        rw [if_pos (show lowerStr ({ p with role := "sender" } : PersonRef).email
              = lowerStr e from heq)]
        simp
      · rw [if_neg hrole]
        simp only [fillSenderAux]
        rw [if_pos heq, if_neg hrole]
    · next hne =>
      cases hr : fillSenderAux e rest with
      | none => rw [hr] at h; cases h
      | some l0 =>
        rw [hr] at h
        cases h
        simp only [fillSenderAux]
        split
        · next heq2 => exact absurd heq2 hne
        · rw [ih l0 hr]
          rfl

theorem map_senderUpdate_eq_self (e : String) :
    ∀ rest : List PersonRef,
      rest.countP (fun p => lowerStr p.email == lowerStr e) = 0 →
      rest.map (fun q =>
          if lowerStr q.email == lowerStr e then { q with role := "sender" } else q)
        = rest := by
  intro rest
  induction rest with
  | nil => intro _; rfl
  | cons q t ih =>
    intro h
    rw [List.countP_cons] at h
    have hq : (lowerStr q.email == lowerStr e) = false := by
      cases hb : (lowerStr q.email == lowerStr e) with
      | false => rfl
      | true =>
        rw [hb] at h
        simp only [eq_self_iff_true, if_true] at h
        omega
    simp only [hq, Bool.false_eq_true, if_false] at h
    simp only [List.map_cons, hq, Bool.false_eq_true, if_false]
    rw [ih (by omega)]

theorem fillSenderAux_unique_nonempty (e : String) :
    ∀ people : List PersonRef,
      people.countP (fun p => lowerStr p.email == lowerStr e) ≤ 1 →
      ∀ p ∈ people, lowerStr p.email = lowerStr e → p.role ≠ "" →
        fillSenderAux e people = some people := by
  intro people
  induction people with
  | nil => intro _ p hp; cases hp
  | cons q rest ih =>
    intro hc p hp hpe hrole
    rw [List.countP_cons] at hc
    simp only [fillSenderAux]
    split
    · next hqe =>
      have hq : (lowerStr q.email == lowerStr e) = true := beq_iff_eq.mpr hqe
      simp only [List.countP_cons, hq, eq_self_iff_true, if_true] at hc
      have hrest0 : rest.countP (fun p => lowerStr p.email == lowerStr e) = 0 := by omega
      have hpq : p = q := by
        rcases List.mem_cons.mp hp with rfl | hmem
        · rfl
        · exfalso
          have := (List.countP_eq_zero.mp hrest0) p hmem
          simp only [beq_iff_eq] at this
          exact this hpe
      subst hpq
      rw [if_neg hrole]
    · next hqe =>
      have hpq : p ∈ rest := by
        rcases List.mem_cons.mp hp with rfl | hmem
        · exact absurd hpe hqe
        · exact hmem
      have hq : (lowerStr q.email == lowerStr e) = false := beq_eq_false_iff_ne.mpr hqe
      simp only [List.countP_cons, hq, Bool.false_eq_true, if_false] at hc
      rw [ih (by omega) p hpq hpe hrole]
      rfl

theorem fillSenderAux_unique_empty (e : String) :
    ∀ people : List PersonRef,
      people.countP (fun p => lowerStr p.email == lowerStr e) ≤ 1 →
      ∀ p ∈ people, lowerStr p.email = lowerStr e → p.role = "" →
        fillSenderAux e people
          = some (people.map (fun q =>
              if lowerStr q.email == lowerStr e then { q with role := "sender" } else q)) := by
  intro people
  induction people with
  | nil => intro _ p hp; cases hp
  | cons q rest ih =>
    intro hc p hp hpe hrole
    rw [List.countP_cons] at hc
    simp only [fillSenderAux]
    split
    · next hqe =>
      have hq : (lowerStr q.email == lowerStr e) = true := beq_iff_eq.mpr hqe
      simp only [List.countP_cons, hq, eq_self_iff_true, if_true] at hc
      have hrest0 : rest.countP (fun p => lowerStr p.email == lowerStr e) = 0 := by omega
      have hpq : p = q := by
        rcases List.mem_cons.mp hp with rfl | hmem
        · rfl
        · exfalso
          have := (List.countP_eq_zero.mp hrest0) p hmem
          simp only [beq_iff_eq] at this
          exact this hpe
      subst hpq
      rw [if_pos hrole]
      simp only [List.map_cons]
      rw [if_pos hq, map_senderUpdate_eq_self e rest hrest0]
    · next hqe =>
      have hpq : p ∈ rest := by
        rcases List.mem_cons.mp hp with rfl | hmem
        · exact absurd hpe hqe
        · exact hmem
      have hq : (lowerStr q.email == lowerStr e) = false := beq_eq_false_iff_ne.mpr hqe
      simp only [List.countP_cons, hq, Bool.false_eq_true, if_false] at hc
      rw [ih (by omega) p hpq hpe hrole]
      simp only [Option.map_some', List.map_cons, hq, Bool.false_eq_true, if_false]


/-- C5 (counterexample): when the draft people list already contains two
entries with the sender's address, sender backfill leaves both in place, so
the output has two matching entries — the claimed "at most one entry whose
email equals the sender address" fails. -/
theorem sender_backfill_C5_counterexample :
    ¬ ((fill_sender (some "a@x.com")
          [{ email := "a@x.com", role := "to" }, { email := "a@x.com", role := "cc" }]).countP
        (fun p => lowerStr p.email == lowerStr "a@x.com") ≤ 1) := by decide

/-- C5 (amended): sender backfill is idempotent in general; and whenever the
input people list contains at most one entry matching the known, non-empty
sender address, the output contains exactly one matching entry — inserted at
the front with role "sender" when the address was absent, the existing list
with the matching entry's empty role set to "sender" when it was present
without a role, and the list unchanged when the matching entry already had a
non-empty role. -/
theorem sender_backfill_C5_amended :
    (∀ (s : Option String) (people : List PersonRef),
        fill_sender s (fill_sender s people) = fill_sender s people)
      ∧ (∀ (e : String) (people : List PersonRef), e ≠ "" →
          people.countP (fun p => lowerStr p.email == lowerStr e) ≤ 1 →
          ((fill_sender (some e) people).countP
              (fun p => lowerStr p.email == lowerStr e) = 1
            ∧ (people.countP (fun p => lowerStr p.email == lowerStr e) = 0 →
                fill_sender (some e) people = { email := e, role := "sender" } :: people)
            ∧ (∀ p ∈ people, lowerStr p.email = lowerStr e → p.role ≠ "" →
                fill_sender (some e) people = people)
            ∧ (∀ p ∈ people, lowerStr p.email = lowerStr e → p.role = "" →
                fill_sender (some e) people
                  = people.map (fun q =>
                      if lowerStr q.email == lowerStr e then { q with role := "sender" }
                      else q)))) := by
  constructor
  · intro s people
    cases s with
    | none => rfl
    | some e =>
      by_cases he : e = ""
      · simp [fill_sender, he]
      · simp only [fill_sender, if_neg he]
        cases haux : fillSenderAux e people with
        | none => simp [fillSenderAux, if_neg he]
        | some l => rw [fillSenderAux_idem e people l haux]
  · intro e people he hc
    refine ⟨?_, ?_, ?_, ?_⟩
    · simp only [fill_sender, if_neg he]
      cases haux : fillSenderAux e people with
      | none =>
        rw [List.countP_cons]
        have h0 := fillSenderAux_none_countP e people haux
        have hself : (lowerStr ({ email := e, role := "sender" } : PersonRef).email
            == lowerStr e) = true := beq_iff_eq.mpr rfl
        simp only [hself, eq_self_iff_true, if_true, h0]
      | some l =>
        obtain ⟨h1, h2⟩ := fillSenderAux_some_countP e people l haux
        show l.countP (fun p => lowerStr p.email == lowerStr e) = 1
        omega
    · intro h0
      simp only [fill_sender, if_neg he]
      cases haux : fillSenderAux e people with
      | none => rfl
      | some l =>
        obtain ⟨_, h2⟩ := fillSenderAux_some_countP e people l haux
        omega
    · intro p hp hpe hrole
      simp only [fill_sender, if_neg he]
      rw [fillSenderAux_unique_nonempty e people hc p hp hpe hrole]
    · intro p hp hpe hrole
      simp only [fill_sender, if_neg he]
      rw [fillSenderAux_unique_empty e people hc p hp hpe hrole]

/-- Witness for the amended C5 at a list not containing the sender. -/
theorem sender_backfill_C5_amended_witness :
    ("a@x.com" : String) ≠ ""
      ∧ ([{ email := "b@x.com", role := "to" }] : List PersonRef).countP
          (fun p => lowerStr p.email == lowerStr "a@x.com") ≤ 1
      ∧ fill_sender (some "a@x.com") [{ email := "b@x.com", role := "to" }]
          = [{ email := "a@x.com", role := "sender" }, { email := "b@x.com", role := "to" }] :=
  ⟨by decide, by decide,
    (sender_backfill_C5_amended.2 "a@x.com" [{ email := "b@x.com", role := "to" }]
      (by decide) (by decide)).2.1 (by decide)⟩


/-! ## C1: weekday resolution -/

/-- C1: for any reference instant and any text containing a weekday name as
a whole word but neither "today" nor "tomorrow", the day resolves to the
reference day plus ((target - reference weekday) mod 7) days with a zero
delta forced to 7 — never the reference date itself — plus 7 more when the
text contains the whole word "next"; from the Monday reference, "Friday"
resolves 4 days later and "next Friday" 11 days later through the full
resolver. -/
theorem weekday_resolution_C1 (text : String) (base : PyDateTime) (nm : String) (wd : Nat)
    (h1 : substrB "today" (lowerStr (pyStrip text)) = false)
    (h2 : substrB "tomorrow" (lowerStr (pyStrip text)) = false)
    (h3 : findWeekday (lowerStr (pyStrip text)) = some (nm, wd)) :
    (∃ r, resolveDay (lowerStr (pyStrip text)) base = some r
        ∧ r.day = base.day
            + ((if Int.emod ((wd : Int) - base.weekday) 7 = 0 then 7
                else Int.emod ((wd : Int) - base.weekday) 7)
               + (if containsWord "next" (lowerStr (pyStrip text)) then 7 else 0))
        ∧ r.day ≠ base.day)
      ∧ infer_datetime idLocalize noFallback "Friday" mondayBase
          = .ok (some ⟨19755, 0, 0, 0, 0, some 0⟩, some "UTC")
      ∧ infer_datetime idLocalize noFallback "next Friday" mondayBase
          = .ok (some ⟨19762, 0, 0, 0, 0, some 0⟩, some "UTC")
      ∧ (19755 : Int) = mondayBase.day + 4 ∧ (19762 : Int) = mondayBase.day + 11 := by
  refine ⟨?_, rfl, rfl, by decide, by decide⟩
  have hd0 : (0 : Int) ≤ Int.emod ((wd : Int) - base.weekday) 7 :=
    Int.emod_nonneg _ (by omega)
  simp only [resolveDay, h1, h2, h3, Bool.false_eq_true, if_false]
  refine ⟨_, rfl, ?_, ?_⟩
  · simp only [PyDateTime.addDays]
    split
    · split <;> omega
    · split <;> omega
  · simp only [PyDateTime.addDays]
    split
    · split <;> omega
    · split <;> omega

/-- Witness for C1 at text "Friday" from the Monday reference. -/
theorem weekday_resolution_C1_witness :
    substrB "today" (lowerStr (pyStrip "Friday")) = false
      ∧ substrB "tomorrow" (lowerStr (pyStrip "Friday")) = false
      ∧ findWeekday (lowerStr (pyStrip "Friday")) = some ("friday", 4)
      ∧ (∃ r, resolveDay (lowerStr (pyStrip "Friday")) mondayBase = some r
          ∧ r.day = mondayBase.day
              + ((if Int.emod ((4 : Nat) - mondayBase.weekday) 7 = 0 then 7
                  else Int.emod ((4 : Nat) - mondayBase.weekday) 7)
                 + (if containsWord "next" (lowerStr (pyStrip "Friday")) then 7 else 0))
          ∧ r.day ≠ mondayBase.day) :=
  ⟨by decide, by decide, by decide,
    (weekday_resolution_C1 "Friday" mondayBase "friday" 4
      (by decide) (by decide) (by decide)).1⟩


/-! ## C9: time-of-day extraction -/

/-- C9: keyword times ("noon" 12:00, "midnight" 00:00, "eod"/"end of day"
17:00, in that precedence), then the 12-hour pattern (12am to 0, 12pm stays
12, other pm hours get 12 added), then the bare 24-hour pattern accepted
only for hours 0-23 and minutes 0-59; and when the day resolved but no time
was found, the resolved instant's time-of-day defaults to 00:00. -/
theorem time_extraction_C9 :
    (∀ t : String, substrB "noon" (lowerStr t) = true →
        extract_time_components t = (some 12, some 0))
      ∧ (∀ t : String, substrB "noon" (lowerStr t) = false →
          substrB "midnight" (lowerStr t) = true →
          extract_time_components t = (some 0, some 0))
      ∧ (∀ t : String, substrB "noon" (lowerStr t) = false →
          substrB "midnight" (lowerStr t) = false →
          (substrB "eod" (lowerStr t) || substrB "end of day" (lowerStr t)) = true →
          extract_time_components t = (some 17, some 0))
      ∧ extract_time_components "2pm" = (some 14, some 0)
      ∧ extract_time_components "2:30 pm" = (some 14, some 30)
      ∧ extract_time_components "12am" = (some 0, some 0)
      ∧ extract_time_components "12:15 am" = (some 0, some 15)
      ∧ extract_time_components "12pm" = (some 12, some 0)
      ∧ extract_time_components "7pm" = (some 19, some 0)
      ∧ extract_time_components "14:30" = (some 14, some 30)
      ∧ extract_time_components "24:00" = (none, none)
      ∧ extract_time_components "14:60" = (none, none)
      ∧ (∀ (localize : String → PyDateTime → PyDateTime)
            (fallbackParse : String → PyDateTime → Option PyDateTime)
            (text : String) (base d : PyDateTime),
          resolveDay (lowerStr (pyStrip text)) (localize text (awareify base)) = some d →
          (extract_time_components (lowerStr (pyStrip text))).1 = none →
          ∃ dt tzn, infer_datetime localize fallbackParse text base = .ok (some dt, tzn)
            ∧ dt.hour = 0 ∧ dt.minute = 0) := by
  refine ⟨?_, ?_, ?_, by decide, by decide, by decide, by decide, by decide, by decide,
    by decide, by decide, by decide, ?_⟩
  · intro t h
    simp only [extract_time_components, h, if_true]
  · intro t h1 h2
    simp only [extract_time_components, h1, h2, Bool.false_eq_true, if_false, if_true]
  · intro t h1 h2 h3
    simp only [extract_time_components, h1, h2, h3, Bool.false_eq_true, if_false, if_true]
  · intro localize fallbackParse text base d hday hnone
    have hstrip : ¬ (pyStrip text = "") := by
      intro he
      rw [he] at hday
      have : lowerStr "" = "" := rfl
      rw [this] at hday
      have hres : resolveDay "" (localize text (awareify base)) = none := by
        simp only [resolveDay,
          (by decide : substrB "today" "" = false),
          (by decide : substrB "tomorrow" "" = false),
          (by decide : findWeekday "" = none), Bool.false_eq_true, if_false]
      rw [hres] at hday
      cases hday
    simp only [infer_datetime, if_neg hstrip, hday, hnone]
    cases hoff : d.off with
    | none =>
      exact ⟨{ d with hour := 0, minute := 0, second := 0, micro := 0, off := (localize text (awareify base)).off.orElse (fun _ => some 0) }, extractTzName text (awareify base), by simp [hoff], rfl, rfl⟩
    | some o =>
      exact ⟨{ d with hour := 0, minute := 0, second := 0, micro := 0 }, extractTzName text (awareify base), by simp [hoff], rfl, rfl⟩

/-- Witness for C9 at the keyword inputs and the weekday text "Friday". -/
theorem time_extraction_C9_witness :
    extract_time_components "after NOON" = (some 12, some 0)
      ∧ extract_time_components "midnight" = (some 0, some 0)
      ∧ extract_time_components "by EOD" = (some 17, some 0)
      ∧ (∃ dt tzn, infer_datetime idLocalize noFallback "Friday" mondayBase
            = .ok (some dt, tzn) ∧ dt.hour = 0 ∧ dt.minute = 0) :=
  ⟨time_extraction_C9.1 "after NOON" (by decide),
   time_extraction_C9.2.1 "midnight" (by decide) (by decide),
   time_extraction_C9.2.2.1 "by EOD" (by decide) (by decide) (by decide),
   time_extraction_C9.2.2.2.2.2.2.2.2.2.2.2.2 idLocalize noFallback "Friday" mondayBase
     ⟨19755, 10, 0, 0, 0, some 0⟩ (by decide) (by decide)⟩


/-! ## C3: meeting backfill -/

theorem fill_dates_aux_best_some
    (localize : String → PyDateTime → PyDateTime)
    (fallbackParse : String → PyDateTime → Option PyDateTime)
    (isoparse : String → Option PyDateTime)
    (baseDt : PyDateTime) (b : PyDateTime) (tz : Option String) :
    ∀ (dates ds : List DateRef) (tz' : Option String) (b' : Option PyDateTime),
      fill_dates_aux localize fallbackParse isoparse baseDt (some b) tz dates
          = .ok (ds, tz', b') →
      tz' = tz ∧ b' = some b := by
  intro dates
  induction dates with
  | nil =>
    intro ds tz' b' h
    simp only [fill_dates_aux] at h
    cases h
    exact ⟨rfl, rfl⟩
  | cons d rest ih =>
    intro ds tz' b' h
    simp only [fill_dates_aux] at h
    split at h
    · cases hr : fill_dates_aux localize fallbackParse isoparse baseDt (some b) tz rest with
      | error u => rw [hr] at h; cases h
      | ok tr =>
        obtain ⟨ds0, tz0, b0⟩ := tr
        rw [hr] at h
        cases h
        exact ih ds0 tz' b' hr
    · cases hinf : infer_datetime localize fallbackParse d.text baseDt with
      | error u => rw [hinf] at h; cases h
      | ok pr =>
        obtain ⟨dt?, tzn⟩ := pr
        rw [hinf] at h
        cases dt? with
        | none =>
          cases hr : fill_dates_aux localize fallbackParse isoparse baseDt (some b) tz rest with
          | error u => rw [hr] at h; cases h
          | ok tr =>
            obtain ⟨ds0, tz0, b0⟩ := tr
            rw [hr] at h
            cases h
            exact ih ds0 tz' b' hr
        | some dt =>
          simp only [Option.isNone_some, Bool.false_and, Bool.false_eq_true, if_false] at h
          cases hr : fill_dates_aux localize fallbackParse isoparse baseDt (some b) tz rest with
          | error u => rw [hr] at h; cases h
          | ok tr =>
            obtain ⟨ds0, tz0, b0⟩ := tr
            rw [hr] at h
            cases h
            exact ih ds0 tz' b' hr

theorem fill_dates_aux_best_none
    (localize : String → PyDateTime → PyDateTime)
    (fallbackParse : String → PyDateTime → Option PyDateTime)
    (isoparse : String → Option PyDateTime)
    (baseDt : PyDateTime) :
    ∀ (dates ds : List DateRef) (tz' : Option String) (b' : Option PyDateTime),
      fill_dates_aux localize fallbackParse isoparse baseDt none none dates
          = .ok (ds, tz', b') →
      (b', tz') = bestOf localize fallbackParse isoparse baseDt dates := by
  intro dates
  induction dates with
  | nil =>
    intro ds tz' b' h
    simp only [fill_dates_aux] at h
    cases h
    rfl
  | cons d rest ih =>
    intro ds tz' b' h
    simp only [fill_dates_aux] at h
    split at h
    · next hblank =>
      simp only [bestOf, hblank, if_true]
      cases hiso : d.iso with
      | none => rw [hiso] at hblank; cases hblank
      | some i =>
        rw [hiso] at h
        simp only [] at h ⊢
        cases hp : isoparse i with
        | none =>
          rw [hp] at h
          cases hr : fill_dates_aux localize fallbackParse isoparse baseDt none none rest with
          | error u => rw [hr] at h; cases h
          | ok tr =>
            obtain ⟨ds0, tz0, b0⟩ := tr
            rw [hr] at h
            cases h
            exact ih ds0 tz' b' hr
        | some p =>
          rw [hp] at h
          cases hr : fill_dates_aux localize fallbackParse isoparse baseDt (some p) none rest with
          | error u => rw [hr] at h; cases h
          | ok tr =>
            obtain ⟨ds0, tz0, b0⟩ := tr
            rw [hr] at h
            cases h
            obtain ⟨htz, hb⟩ := fill_dates_aux_best_some localize fallbackParse isoparse
              baseDt p none rest ds0 tz' b' hr
            rw [htz, hb]
    · next hblank =>
      have hblank' : isoNonBlank d.iso = false := Bool.eq_false_iff.mpr hblank
      simp only [bestOf, hblank', Bool.false_eq_true, if_false]
      cases hinf : infer_datetime localize fallbackParse d.text baseDt with
      | error u => rw [hinf] at h; cases h
      | ok pr =>
        obtain ⟨dt?, tzn⟩ := pr
        rw [hinf] at h
        cases dt? with
        | none =>
          cases hr : fill_dates_aux localize fallbackParse isoparse baseDt none none rest with
          | error u => rw [hr] at h; cases h
          | ok tr =>
            obtain ⟨ds0, tz0, b0⟩ := tr
            rw [hr] at h
            cases h
            exact ih ds0 tz' b' hr
        | some dt =>
          simp only [Option.isNone_none, Bool.true_and] at h
          by_cases ht : hasTimeB d.text
          · rw [if_pos ht] at h
            simp only [ht, if_true]
            cases hr : fill_dates_aux localize fallbackParse isoparse baseDt (some dt) tzn rest with
            | error u => rw [hr] at h; cases h
            | ok tr =>
              obtain ⟨ds0, tz0, b0⟩ := tr
              rw [hr] at h
              cases h
              obtain ⟨htz, hb⟩ := fill_dates_aux_best_some localize fallbackParse isoparse
                baseDt dt tzn rest ds0 tz' b' hr
              rw [htz, hb]
          · rw [if_neg ht] at h
            have ht' : hasTimeB d.text = false := Bool.eq_false_iff.mpr ht
            simp only [ht', Bool.false_eq_true, if_false]
            cases hr : fill_dates_aux localize fallbackParse isoparse baseDt none none rest with
            | error u => rw [hr] at h; cases h
            | ok tr =>
              obtain ⟨ds0, tz0, b0⟩ := tr
              rw [hr] at h
              cases h
              exact ih ds0 tz' b' hr


/-- C3 (counterexample): with a single date entity that already carries the
ISO value "2030-01-02" (so no raw text is resolved at all, let alone to a
full datetime), the scheduling-triggered meeting backfill still fills
start_at, seeded from the pre-existing ISO — refuting "the start time from
the first resolved full-datetime instant". -/
theorem meeting_backfill_C3_counterexample :
    ([{ text := "later", iso := some "2030-01-02", type := "other" }] : List DateRef).all
        (fun d => isoNonBlank d.iso) = true
      ∧ fill_date_isos idLocalize noFallback isoparse20300102 mondayBase
          [{ text := "later", iso := some "2030-01-02", type := "other" }]
        = .ok ([{ text := "later", iso := some "2030-01-02", type := "other" }],
               none, some ⟨21916, 0, 0, 0, 0, none⟩)
      ∧ fill_meeting "Re: Sync" .schedule_and_time "OTHER" none none
          (some ⟨21916, 0, 0, 0, 0, none⟩)
        = some { topic := some "Sync", startAt := some "2030-01-02T00:00:00", tz := none } :=
  ⟨by decide, rfl, by decide⟩

/-- C3 (amended): meeting backfill runs exactly on the scheduling trigger
(category `schedule_and_time` or canonical key prefixed "SCHEDULE_"),
creates a meeting when none exists, fills only blank fields — the topic
from the prefix-stripped subject, the start time from the "best" instant
tracked during date backfill (the first date entity that either already
carried a parseable non-blank ISO, or whose raw text resolved with a
time-of-day, in declaration order), and the timezone from the zone name
tracked with that instant (never set by an existing-ISO seed) — and never
overwrites a populated field. -/
theorem meeting_backfill_C3_amended
    (localize : String → PyDateTime → PyDateTime)
    (fallbackParse : String → PyDateTime → Option PyDateTime)
    (isoparse : String → Option PyDateTime)
    (baseDt : PyDateTime) (dates ds : List DateRef)
    (btz : Option String) (bdt : Option PyDateTime)
    (subject : String) (cat : MajorCategory) (key : String)
    (meeting : Option MeetingRef)
    (hfd : fill_date_isos localize fallbackParse isoparse baseDt dates
            = .ok (ds, btz, bdt)) :
    (bdt, btz) = bestOf localize fallbackParse isoparse baseDt dates
      ∧ ((decide (cat.value = "schedule_and_time")
            || List.isPrefixOf "SCHEDULE_".data (upperStr key).data) = false →
          fill_meeting subject cat key meeting btz bdt = meeting)
      ∧ ((decide (cat.value = "schedule_and_time")
            || List.isPrefixOf "SCHEDULE_".data (upperStr key).data) = true →
          (fill_meeting subject cat key meeting btz bdt).isSome = true
          ∧ ∀ m', fill_meeting subject cat key meeting btz bdt = some m' →
              ((blankOpt (meeting.getD {}).topic = true →
                  m'.topic = some (subject_to_topic subject))
               ∧ (blankOpt (meeting.getD {}).topic = false →
                  m'.topic = (meeting.getD {}).topic)
               ∧ (blankOpt (meeting.getD {}).startAt = true →
                  ∀ b, bdt = some b → m'.startAt = some (isoDateTime b))
               ∧ (blankOpt (meeting.getD {}).startAt = false →
                  m'.startAt = (meeting.getD {}).startAt)
               ∧ (bdt = none → m'.startAt = (meeting.getD {}).startAt)
               ∧ (blankOpt (meeting.getD {}).tz = false →
                  m'.tz = (meeting.getD {}).tz)
               ∧ (∀ t, btz = some t → t ≠ "" → blankOpt (meeting.getD {}).tz = true →
                  m'.tz = some t))) := by
  refine ⟨fill_dates_aux_best_none _ _ _ _ dates ds btz bdt hfd, ?_, ?_⟩
  · intro hw
    simp only [fill_meeting, hw, Bool.not_false, if_true]
  · intro hw
    simp only [fill_meeting, hw, Bool.not_true, Bool.false_eq_true, if_false]
    constructor
    · rfl
    · intro m' hm'
      injection hm' with hm'
      subst hm'
      refine ⟨?_, ?_, ?_, ?_, ?_, ?_, ?_⟩
      · intro h1
        cases btz <;> cases bdt <;> split_ifs <;> simp_all [apply_ite MeetingRef.topic, apply_ite MeetingRef.startAt, apply_ite MeetingRef.tz]
      · intro h1
        cases btz <;> cases bdt <;> split_ifs <;> simp_all [apply_ite MeetingRef.topic, apply_ite MeetingRef.startAt, apply_ite MeetingRef.tz]
      · intro h1 b hb
        subst hb
        cases btz <;> split_ifs <;> simp_all [apply_ite MeetingRef.topic, apply_ite MeetingRef.startAt, apply_ite MeetingRef.tz]
      · intro h1
        cases btz <;> cases bdt <;> split_ifs <;> simp_all [apply_ite MeetingRef.topic, apply_ite MeetingRef.startAt, apply_ite MeetingRef.tz]
      · intro h1
        subst h1
        cases btz <;> split_ifs <;> simp_all [apply_ite MeetingRef.topic, apply_ite MeetingRef.startAt, apply_ite MeetingRef.tz]
      · intro h1
        cases btz <;> cases bdt <;> split_ifs <;> simp_all [apply_ite MeetingRef.topic, apply_ite MeetingRef.startAt, apply_ite MeetingRef.tz]
      · intro t ht hne h1
        subst ht
        cases bdt <;> split_ifs <;> simp_all [apply_ite MeetingRef.topic, apply_ite MeetingRef.startAt, apply_ite MeetingRef.tz]

/-- Witness for the amended C3 at a resolvable full-datetime date entity. -/
theorem meeting_backfill_C3_amended_witness :
    fill_date_isos idLocalize noFallback noIsoparse mondayBase
        [{ text := "Friday 2pm", iso := none, type := "meeting_time" }]
      = .ok ([{ text := "Friday 2pm", iso := some "2024-02-02T14:00:00+00:00",
                type := "meeting_time" }],
             some "UTC", some ⟨19755, 14, 0, 0, 0, some 0⟩)
      ∧ ((some (⟨19755, 14, 0, 0, 0, some 0⟩ : PyDateTime), (some "UTC" : Option String))
          = bestOf idLocalize noFallback noIsoparse mondayBase
              [{ text := "Friday 2pm", iso := none, type := "meeting_time" }]) :=
  ⟨rfl,
    (meeting_backfill_C3_amended idLocalize noFallback noIsoparse mondayBase
      [{ text := "Friday 2pm", iso := none, type := "meeting_time" }]
      [{ text := "Friday 2pm", iso := some "2024-02-02T14:00:00+00:00",
         type := "meeting_time" }]
      (some "UTC") (some ⟨19755, 14, 0, 0, 0, some 0⟩)
      "Re: Sync" .schedule_and_time "OTHER" none rfl).1⟩


/-! ## C7: action-key canonicalization -/

theorem mem_collapseNonAlnumAux :
    ∀ (l : List Char) (b : Bool) (c : Char), c ∈ collapseNonAlnumAux b l →
      isAsciiAlnum c = true ∨ c = '_' := by
  intro l
  induction l with
  | nil => intro b c hc; cases hc
  | cons a t ih =>
    intro b c hc
    simp only [collapseNonAlnumAux] at hc
    split at hc
    · next ha =>
      rcases List.mem_cons.mp hc with rfl | hc
      · exact Or.inl ha
      · exact ih false c hc
    · split at hc
      · exact ih true c hc
      · rcases List.mem_cons.mp hc with rfl | hc
        · exact Or.inr rfl
        · exact ih true c hc

theorem mem_collapseUnderscoresAux :
    ∀ (l : List Char) (b : Bool) (c : Char), c ∈ collapseUnderscoresAux b l → c ∈ l := by
  intro l
  induction l with
  | nil => intro b c hc; cases hc
  | cons a t ih =>
    intro b c hc
    simp only [collapseUnderscoresAux] at hc
    split at hc
    · next ha =>
      split at hc
      · exact List.mem_cons_of_mem _ (ih true c hc)
      · rcases List.mem_cons.mp hc with rfl | hc
        · subst ha; exact List.mem_cons_self _ _
        · exact List.mem_cons_of_mem _ (ih true c hc)
    · rcases List.mem_cons.mp hc with rfl | hc
      · exact List.mem_cons_self _ _
      · exact List.mem_cons_of_mem _ (ih false c hc)

/-- C7: canonicalization yields a non-empty result that is either the
sentinel "OTHER" (empty, whitespace-only or all-punctuation input) or the
upper-casing of a non-empty token of alphanumerics and single underscores
with no leading or trailing underscore; with the three stated examples. -/
theorem action_key_canonicalization_C7 (k : String) :
    normalize_sub_action_key k ≠ ""
      ∧ (normalize_sub_action_key k = "OTHER"
          ∨ ∃ t : String,
              normalize_sub_action_key k = upperStr t
                ∧ t ≠ ""
                ∧ t.data.all (fun c => isAsciiAlnum c || c == '_') = true
                ∧ t.data.head? ≠ some '_'
                ∧ t.data.getLast? ≠ some '_')
      ∧ normalize_sub_action_key "schedule confirm!!" = "SCHEDULE_CONFIRM"
      ∧ normalize_sub_action_key "" = "OTHER"
      ∧ normalize_sub_action_key "___" = "OTHER" := by
  refine ⟨?_, ?_, by decide, by decide, by decide⟩
  · unfold normalize_sub_action_key
    split
    · decide
    · simp only []
      split
      · decide
      · split
        · decide
        · next h3 =>
          intro he
          apply h3
          rw [string_eq_iff_data] at he ⊢
          simpa [upperStr] using he
  · unfold normalize_sub_action_key
    split
    · exact Or.inl rfl
    · simp only []
      split
      · exact Or.inl rfl
      · split
        · exact Or.inl rfl
        · next h3 =>
          refine Or.inr ⟨stripUnderscores (collapseUnderscores (collapseNonAlnum (pyStrip k))),
            rfl, h3, ?_, ?_, ?_⟩
          · rw [List.all_eq_true]
            intro c hc
            have h1 : c ∈ (collapseUnderscores (collapseNonAlnum (pyStrip k))).data :=
              mem_stripEnds hc
            have h2 : c ∈ (collapseNonAlnum (pyStrip k)).data :=
              mem_collapseUnderscoresAux _ false c h1
            rcases mem_collapseNonAlnumAux _ false c h2 with h | h
            · simp [h]
            · simp [h]
          · intro hh
            have := head?_stripEnds_not (p := fun c => c = '_')
              (collapseUnderscores (collapseNonAlnum (pyStrip k))).data '_' hh
            simp at this
          · intro hh
            have := getLast?_stripEnds_not (p := fun c => c = '_')
              (collapseUnderscores (collapseNonAlnum (pyStrip k))).data '_' hh
            simp at this

/-- Witness for C7 at a mixed input. -/
theorem action_key_canonicalization_C7_witness :
    normalize_sub_action_key "  reply: urgent!  " ≠ ""
      ∧ (normalize_sub_action_key "  reply: urgent!  " = "OTHER"
          ∨ ∃ t : String,
              normalize_sub_action_key "  reply: urgent!  " = upperStr t
                ∧ t ≠ ""
                ∧ t.data.all (fun c => isAsciiAlnum c || c == '_') = true
                ∧ t.data.head? ≠ some '_'
                ∧ t.data.getLast? ≠ some '_')
      ∧ normalize_sub_action_key "schedule confirm!!" = "SCHEDULE_CONFIRM"
      ∧ normalize_sub_action_key "" = "OTHER"
      ∧ normalize_sub_action_key "___" = "OTHER" :=
  action_key_canonicalization_C7 "  reply: urgent!  "

end AIServer
